/-
Verification of the process-session and streaming layer of the ias-editor
repository (`main.cjs` and `ansi-to-html.cjs`) against its specification.

JavaScript strings are modelled as `List Char`. Stateful handlers are
modelled as explicit state-passing functions; the module-level mutable
variables of `main.cjs` (`emulatorProcess`, the stdout `buffer`,
`totalOutput`, the stop-handler timer) become fields of explicit state
records, and the externally scheduled callbacks (process `exit`/`error`
delivery, `setTimeout` firing, IPC invocations) become steps of a trace
machine.
-/
import Mathlib

namespace IasEditor

/-- Prepend a character onto the first segment of a non-empty list of
segments (used to model keeping a non-separator character inside the
current split segment). -/
def consHead (c : Char) : List (List Char) → List (List Char)
  | [] => [[c]]
  | s :: ss => (c :: s) :: ss

/-- Model of `buffer.split(/\r?\n/)` from `main.cjs` line 206: split a
string on the separators `"\r\n"` and `"\n"`; a lone `'\r'` is not a
separator and stays inside its segment.  Always returns at least one
segment, like the JavaScript `split`. -/
def splitCRLF : List Char → List (List Char)
  | [] => [[]]
  | '\n' :: rest => [] :: splitCRLF rest
  | '\r' :: '\n' :: rest => [] :: splitCRLF rest
  | c :: rest => consHead c (splitCRLF rest)

/-- One invocation of the stdout framing logic of `main.cjs` lines
202-207: append the chunk to the pending buffer, split on `\r?\n`, keep
the last (unterminated) segment as the new buffer (`lines.pop() || ""`),
and emit the remaining segments as complete lines. -/
def frameStep (buf chunk : List Char) : List (List Char) × List Char :=
  let segs := splitCRLF (buf ++ chunk)
  (segs.dropLast, segs.getLastD [])

/-- Accumulator step: extend the list of already emitted lines with the
lines produced from one chunk, carrying the pending buffer. -/
def frameFold (acc : List (List Char) × List Char) (chunk : List Char) :
    List (List Char) × List Char :=
  (acc.1 ++ (frameStep acc.2 chunk).1, (frameStep acc.2 chunk).2)

/-- Feed a sequence of stdout chunks through `frameStep`, starting from
an empty pending buffer, accumulating all emitted lines in order. -/
def frameRun (cs : List (List Char)) : List (List Char) × List Char :=
  cs.foldl frameFold ([], [])

example : splitCRLF ("a\r\nb\n c".toList) = ["a".toList, "b".toList, " c".toList] := by decide

example : frameRun ["a\r".toList, "\nb\n c".toList] =
    (["a".toList, "b".toList], " c".toList) := by decide

example : frameRun ["a\r\nb\n c".toList] =
    (["a".toList, "b".toList], " c".toList) := by decide

theorem splitCRLF_ne_nil (l : List Char) : splitCRLF l ≠ [] := by
  induction l using splitCRLF.induct <;> simp [splitCRLF, consHead]
  case _ c rest h1 h2 ih =>
    cases hs : splitCRLF rest with
    | nil => exact absurd hs ih
    | cons s ss => simp [consHead]

theorem splitCRLF_cons (c : Char) (rest : List Char) (h1 : c = '\n' → False)
    (h2 : ∀ r2, c = '\r' → rest = '\n' :: r2 → False) :
    splitCRLF (c :: rest) = consHead c (splitCRLF rest) := by
  rw [splitCRLF]
  · exact h1
  · exact h2

theorem splitCRLF_singleton {l h : List Char} (hh : splitCRLF l = [h]) : h = l := by
  induction l using splitCRLF.induct generalizing h with
  | case1 => simp [splitCRLF] at hh; simp [hh]
  | case2 rest ih =>
    simp [splitCRLF] at hh
    exact (splitCRLF_ne_nil rest hh.2).elim
  | case3 rest ih =>
    simp [splitCRLF] at hh
    exact (splitCRLF_ne_nil rest hh.2).elim
  | case4 c rest h1 h2 ih =>
    rw [splitCRLF_cons c rest h1 h2] at hh
    cases hs : splitCRLF rest with
    | nil => exact absurd hs (splitCRLF_ne_nil rest)
    | cons s ss =>
      rw [hs, consHead] at hh
      cases ss with
      | nil =>
        have h3 : s = rest := ih hs
        simp at hh
        simp [hh.symm, h3]
      | cons t ts => simp at hh

theorem dropLast_cons_ne_nil {α : Type} (x : α) {l : List α} (h : l ≠ []) :
    (x :: l).dropLast = x :: l.dropLast := by
  cases l with
  | nil => exact absurd rfl h
  | cons y ys => rfl

theorem getLastD_irrel {α : Type} {l : List α} (h : l ≠ []) (d d' : α) :
    l.getLastD d = l.getLastD d' := by
  cases l with
  | nil => exact absurd rfl h
  | cons y ys => rw [List.getLastD_cons, List.getLastD_cons]

theorem splitCRLF_append (a b : List Char) :
    splitCRLF (a ++ b) =
      (splitCRLF a).dropLast ++ splitCRLF ((splitCRLF a).getLastD [] ++ b) := by
  induction a using splitCRLF.induct with
  | case1 => simp [splitCRLF]
  | case2 rest ih =>
    have hne := splitCRLF_ne_nil rest
    simp only [List.cons_append, splitCRLF, dropLast_cons_ne_nil _ hne,
      List.getLastD_cons, List.cons_append]
    exact congrArg (List.cons []) ih
  | case3 rest ih =>
    have hne := splitCRLF_ne_nil rest
    simp only [List.cons_append, splitCRLF, dropLast_cons_ne_nil _ hne,
      List.getLastD_cons, List.cons_append]
    exact congrArg (List.cons []) ih
  | case4 c rest h1 h2 ih =>
    rw [splitCRLF_cons c rest h1 h2]
    cases hs : splitCRLF rest with
    | nil => exact absurd hs (splitCRLF_ne_nil rest)
    | cons s ss =>
      cases ss with
      | nil =>
        have h3 : s = rest := splitCRLF_singleton hs
        subst h3
        simp [consHead, List.dropLast_single, List.getLastD_cons]
      | cons t ts =>
        have hrest : rest ≠ [] := by
          intro h0
          rw [h0] at hs
          simp [splitCRLF] at hs
        have hstep : splitCRLF (c :: (rest ++ b)) = consHead c (splitCRLF (rest ++ b)) := by
          rw [splitCRLF_cons c (rest ++ b) h1]
          intro r2 hc hr
          cases rest with
          | nil => exact hrest rfl
          | cons d ds =>
            rw [List.cons_append] at hr
            injection hr with hd htl
            exact h2 ds hc (by rw [hd])
        rw [List.cons_append, hstep, ih, hs]
        have hne2 : (t :: ts) ≠ ([] : List (List Char)) := by simp
        simp only [consHead, dropLast_cons_ne_nil _ hne2, List.getLastD_cons,
          List.cons_append]

theorem dropLast_append_ne {α : Type} (X : List α) {Y : List α} (h : Y ≠ []) :
    (X ++ Y).dropLast = X ++ Y.dropLast := by
  induction X with
  | nil => rfl
  | cons x xs ih =>
    have hxy : xs ++ Y ≠ [] := by
      intro h0
      rcases List.append_eq_nil.mp h0 with ⟨_, h2⟩
      exact h h2
    rw [List.cons_append, dropLast_cons_ne_nil x hxy, ih, List.cons_append]

theorem getLastD_append_ne {α : Type} (X : List α) {Y : List α} (h : Y ≠ []) (d : α) :
    (X ++ Y).getLastD d = Y.getLastD d := by
  induction X generalizing d with
  | nil => rfl
  | cons x xs ih =>
    rw [List.cons_append, List.getLastD_cons, ih x]
    exact getLastD_irrel h x d

theorem splitCRLF_last_stable (l : List Char) :
    splitCRLF ((splitCRLF l).getLastD []) = [(splitCRLF l).getLastD []] := by
  induction l using splitCRLF.induct with
  | case1 => rfl
  | case2 rest ih => rw [splitCRLF, List.getLastD_cons]; exact ih
  | case3 rest ih => rw [splitCRLF, List.getLastD_cons]; exact ih
  | case4 c rest h1 h2 ih =>
    rw [splitCRLF_cons c rest h1 h2]
    cases hs : splitCRLF rest with
    | nil => exact (splitCRLF_ne_nil rest hs).elim
    | cons s ss =>
      cases ss with
      | nil =>
        have h3 : s = rest := splitCRLF_singleton hs
        rw [consHead, List.getLastD_cons, List.getLastD_nil]
        rw [splitCRLF_cons c s h1 (fun r2 hc hr => h2 r2 hc (h3 ▸ hr))]
        rw [hs] at ih
        rw [List.getLastD_cons, List.getLastD_nil] at ih
        rw [ih, consHead]
      | cons t ts =>
        rw [hs] at ih
        rw [List.getLastD_cons] at ih
        rw [consHead, List.getLastD_cons]
        rw [getLastD_irrel (by simp : (t :: ts) ≠ ([] : List (List Char))) (c :: s) s]
        exact ih

theorem frameRun_fold (cs : List (List Char)) :
    ∀ (acc : List (List Char)) (buf : List Char), splitCRLF buf = [buf] →
    cs.foldl frameFold (acc, buf) =
    (acc ++ (splitCRLF (buf ++ cs.flatten)).dropLast,
     (splitCRLF (buf ++ cs.flatten)).getLastD []) := by
  induction cs with
  | nil =>
    intro acc buf hb
    simp [List.foldl, hb]
  | cons c cs' ih =>
    intro acc buf hb
    rw [List.foldl_cons]
    have hstep : frameFold (acc, buf) c =
        (acc ++ (splitCRLF (buf ++ c)).dropLast, (splitCRLF (buf ++ c)).getLastD []) := rfl
    rw [hstep]
    have hb' : splitCRLF ((splitCRLF (buf ++ c)).getLastD []) =
        [(splitCRLF (buf ++ c)).getLastD []] := splitCRLF_last_stable (buf ++ c)
    rw [ih _ _ hb']
    have hsplit : splitCRLF (buf ++ (c :: cs').flatten) =
        (splitCRLF (buf ++ c)).dropLast ++
          splitCRLF ((splitCRLF (buf ++ c)).getLastD [] ++ cs'.flatten) := by
      rw [List.flatten_cons, ← List.append_assoc]
      exact splitCRLF_append (buf ++ c) cs'.flatten
    have hne : splitCRLF ((splitCRLF (buf ++ c)).getLastD [] ++ cs'.flatten) ≠ [] :=
      splitCRLF_ne_nil _
    rw [hsplit, dropLast_append_ne _ hne, getLastD_append_ne _ hne]
    simp [List.append_assoc]

/-- C2: feeding stdout chunks to the framer one at a time yields exactly
the lines obtained by splitting the concatenation of all chunks on
`\r?\n` and dropping the final unterminated segment, regardless of how
the text was partitioned into chunks; the unterminated remainder is the
retained pending buffer and is never among the emitted lines. -/
theorem C2_chunk_boundary_invariance (cs : List (List Char)) :
    frameRun cs = ((splitCRLF cs.flatten).dropLast, (splitCRLF cs.flatten).getLastD []) := by
  rw [frameRun, frameRun_fold cs [] [] rfl]
  simp

/-! Embedding of `ansi-to-html.cjs` (`convertAnsiToHtml` and its
helpers). -/

def htmlEscape1 (c : Char) : List Char :=
  if c = '&' then "&amp;".toList
  else if c = '<' then "&lt;".toList
  else if c = '>' then "&gt;".toList
  else if c = '"' then "&quot;".toList
  else [c]

structure StyleState where
  color : Option String
  background : Option String
  bold : Bool
  underline : Bool
  inverse : Bool
deriving DecidableEq, Repr

def initStyle : StyleState := ⟨none, none, false, false, false⟩

def CSS_COLORS (n : Int) : Option String :=
  if n = 30 then some "black"
  else if n = 31 then some "red"
  else if n = 32 then some "green"
  else if n = 33 then some "yellow"
  else if n = 34 then some "blue"
  else if n = 35 then some "magenta"
  else if n = 36 then some "cyan"
  else if n = 37 then some "white"
  else if n = 90 then some "#808080"
  else if n = 91 then some "#ff5555"
  else if n = 92 then some "#55ff55"
  else if n = 93 then some "#ffff55"
  else if n = 94 then some "#5555ff"
  else if n = 95 then some "#ff55ff"
  else if n = 96 then some "#55ffff"
  else if n = 97 then some "#ffffff"
  else none

def applySgr (cur : StyleState) (code : Option Int) : StyleState :=
  match code with
  | none => cur
  | some k =>
    if k = 0 then { cur with color := none, background := none, bold := false,
                             underline := false, inverse := false }
    else if k = 1 then { cur with bold := true }
    else if k = 4 then { cur with underline := true }
    else if k = 7 then { cur with inverse := true }
    else if k = 21 ∨ k = 22 then { cur with bold := false }
    else if k = 24 then { cur with underline := false }
    else if (30 ≤ k ∧ k ≤ 37) ∨ (90 ≤ k ∧ k ≤ 97) then { cur with color := CSS_COLORS k }
    else if (40 ≤ k ∧ k ≤ 47) ∨ (100 ≤ k ∧ k ≤ 107) then
      { cur with background := CSS_COLORS (if 100 ≤ k then k - 60 else k - 10) }
    else cur

def sgrToStyle (sgrList : List (Option Int)) (cur : StyleState) : StyleState :=
  sgrList.foldl applySgr cur

def styleToSpanOpen (cur : StyleState) : List Char :=
  let styles : List String :=
    (if cur.inverse then
      (match cur.color with | some c => ["background:" ++ c] | none => []) ++
      (match cur.background with | some b => ["color:" ++ b] | none => [])
    else
      (match cur.color with | some c => ["color:" ++ c] | none => []) ++
      (match cur.background with | some b => ["background:" ++ b] | none => [])) ++
    (if cur.bold then ["font-weight:700"] else []) ++
    (if cur.underline then ["text-decoration:underline"] else [])
  if styles.isEmpty then []
  else ("<span style=\"" ++ String.intercalate ";" styles ++ "\">").toList

def jsWhite (c : Char) : Bool :=
  decide (c = ' ' ∨ c = '\t' ∨ c = '\n' ∨ c = '\r' ∨ c = '\x0b' ∨ c = '\x0c' ∨
    c = '\u00A0' ∨ c = '\uFEFF' ∨ c = '\u1680' ∨
    ('\u2000' ≤ c ∧ c ≤ '\u200A') ∨ c = '\u2028' ∨ c = '\u2029' ∨
    c = '\u202F' ∨ c = '\u205F' ∨ c = '\u3000')

def digitVal (c : Char) : Nat := c.toNat - '0'.toNat

def decDigits (l : List Char) : Nat :=
  l.foldl (fun acc c => acc * 10 + digitVal c) 0

def jsParseInt (s : List Char) : Option Int :=
  let s0 := if s.isEmpty then ['0'] else s
  let s1 := s0.dropWhile jsWhite
  let p :=
    match s1 with
    | '-' :: r => (true, r)
    | '+' :: r => (false, r)
    | r => (false, r)
  let digits := p.2.takeWhile (fun c => decide ('0' ≤ c ∧ c ≤ '9'))
  if digits.isEmpty then none
  else some (if p.1 then -(decDigits digits : Int) else (decDigits digits : Int))

def splitSemis : List Char → List (List Char)
  | [] => [[]]
  | ';' :: rest => [] :: splitSemis rest
  | c :: rest =>
    match splitSemis rest with
    | [] => [[c]]
    | s :: ss => (c :: s) :: ss

def takeParams : List Char → Option (List Char × List Char)
  | [] => none
  | 'm' :: rest => some ([], rest)
  | c :: rest =>
    match takeParams rest with
    | none => none
    | some pr => some (c :: pr.1, pr.2)

def closeSpan (out openSpan : List Char) : List Char :=
  if openSpan.isEmpty then out else out ++ "</span>".toList

def chopLastLine (out : List Char) : List Char :=
  (out.reverse.dropWhile (fun c => c != '\n')).reverse

/-- The scanning loop of `convertAnsiToHtml`, with an explicit fuel
argument (one unit per loop iteration is enough since every iteration
consumes at least one input character; callers pass `input.length + 1`).
State: remaining input, current style, emitted output, open span tag. -/
def convertLoopF : Nat → List Char → StyleState → List Char → List Char → List Char
  | 0, _, _, out, openSpan => closeSpan out openSpan
  | Nat.succ fuel, input, cur, out, openSpan =>
    match input with
    | [] => closeSpan out openSpan
    | ch :: rest =>
      if ch = '\x1b' ∧ rest.head? = some '[' then
        match takeParams rest.tail with
        | none => convertLoopF fuel rest cur (out ++ htmlEscape1 ch) openSpan
        | some pr =>
          let nums := if pr.1.isEmpty then [some (0 : Int)]
                      else (splitSemis pr.1).map jsParseInt
          let out1 := closeSpan out openSpan
          let cur2 := sgrToStyle nums cur
          let spanOpen := styleToSpanOpen cur2
          convertLoopF fuel pr.2 cur2 (out1 ++ spanOpen) spanOpen
      else if ch = '\r' then convertLoopF fuel rest cur (chopLastLine out) openSpan
      else if ch = '\n' then convertLoopF fuel rest cur (out ++ ['\n']) openSpan
      else convertLoopF fuel rest cur (out ++ htmlEscape1 ch) openSpan

def newlineToBr (l : List Char) : List Char :=
  l.flatMap (fun c => if c = '\n' then "<br>".toList else [c])

def convertAnsiToHtml (input : List Char) : List Char :=
  "<pre style=\"white-space:pre-wrap; margin:0\">".toList ++
    newlineToBr (convertLoopF (input.length + 1) input initStyle [] []) ++
    "</pre>".toList

example : convertAnsiToHtml "AAA\rBB".toList =
    "<pre style=\"white-space:pre-wrap; margin:0\">BB</pre>".toList := by decide

example : convertAnsiToHtml "AAA\r\nBB".toList =
    "<pre style=\"white-space:pre-wrap; margin:0\"><br>BB</pre>".toList := by decide

example : convertAnsiToHtml "\x1b[31mRED\x1b[0mplain".toList =
    "<pre style=\"white-space:pre-wrap; margin:0\"><span style=\"color:red\">RED</span>plain</pre>".toList := by decide

example : convertAnsiToHtml "\x1b[31;44;7mX".toList =
    "<pre style=\"white-space:pre-wrap; margin:0\"><span style=\"background:red;color:blue\">X</span></pre>".toList := by decide

example : convertAnsiToHtml "a<b\x1bZ".toList =
    "<pre style=\"white-space:pre-wrap; margin:0\">a&lt;b\x1bZ</pre>".toList := by decide

/-- C10: `convertAnsiToHtml` is total — it is a total Lean function, and
for every input it returns a complete wrapped result (second conjunct) —
and an escape character not immediately followed by a bracket is not
treated as a control-sequence introducer: the scanning loop copies it to
the output like an ordinary literal character and continues with the
next character (first conjunct). -/
theorem C10_total_and_esc_literal :
    (∀ (fuel : Nat) (c : Char) (rest : List Char) (cur : StyleState) (out openSpan : List Char),
      ¬ c = '[' →
      convertLoopF (fuel + 1) ('\x1b' :: c :: rest) cur out openSpan =
        convertLoopF fuel (c :: rest) cur (out ++ ['\x1b']) openSpan)
    ∧ (∀ input : List Char, ∃ body : List Char, convertAnsiToHtml input =
        "<pre style=\"white-space:pre-wrap; margin:0\">".toList ++ body ++ "</pre>".toList) := by
  constructor
  · intro fuel c rest cur out openSpan h
    simp only [convertLoopF, List.head?_cons, List.tail_cons]
    rw [if_neg (by simp [h]), if_neg (by decide), if_neg (by decide)]
    rfl
  · intro input
    exact ⟨newlineToBr (convertLoopF (input.length + 1) input initStyle [] []), rfl⟩

/-- C10 witness: the escape-literal step of `C10_total_and_esc_literal`
applied at a concrete input, with its hypothesis discharged there. -/
theorem C10_witness :
    ¬ 'X' = '[' ∧
    convertLoopF 6 ['\x1b', 'X'] initStyle [] [] =
      convertLoopF 5 ['X'] initStyle ['\x1b'] [] :=
  ⟨by decide, C10_total_and_esc_literal.1 5 'X' [] initStyle [] [] (by decide)⟩

/-! Embedding of the JSON classification path (`JSON.parse` and the line
classifier of `main.cjs` lines 209-222). -/

/-- JSON values as produced by `JSON.parse`.  Numbers keep their source
lexeme (no claim inspects numeric values, so no floating-point semantics
are modelled). -/
inductive JsonVal where
  | jnull : JsonVal
  | jbool : Bool → JsonVal
  | jnum : List Char → JsonVal
  | jstr : List Char → JsonVal
  | jarr : List JsonVal → JsonVal
  | jobj : List (List Char × JsonVal) → JsonVal

/-- JSON insignificant whitespace (space, tab, line feed, carriage
return), as accepted by `JSON.parse`. -/
def jsonWhite (c : Char) : Bool :=
  decide (c = ' ' ∨ c = '\t' ∨ c = '\n' ∨ c = '\r')

def skipWs (s : List Char) : List Char := s.dropWhile jsonWhite

def isHexDigit (c : Char) : Bool :=
  decide (('0' ≤ c ∧ c ≤ '9') ∨ ('a' ≤ c ∧ c ≤ 'f') ∨ ('A' ≤ c ∧ c ≤ 'F'))

def hexVal (c : Char) : Nat :=
  if decide ('0' ≤ c ∧ c ≤ '9') then c.toNat - '0'.toNat
  else if decide ('a' ≤ c ∧ c ≤ 'f') then c.toNat - 'a'.toNat + 10
  else c.toNat - 'A'.toNat + 10

/-- Parse the remainder of a JSON string literal (after the opening
quote): returns the decoded characters and the rest after the closing
quote.  Control characters below 0x20 must be escaped; `\\uXXXX` decodes
to the character with that code. -/
def parseStringRest : List Char → Option (List Char × List Char)
  | [] => none
  | '"' :: rest => some ([], rest)
  | '\\' :: e :: rest =>
    if e = '"' ∨ e = '\\' ∨ e = '/' then
      match parseStringRest rest with
      | none => none
      | some pr => some (e :: pr.1, pr.2)
    else if e = 'b' then
      match parseStringRest rest with
      | none => none
      | some pr => some ('\x08' :: pr.1, pr.2)
    else if e = 'f' then
      match parseStringRest rest with
      | none => none
      | some pr => some ('\x0c' :: pr.1, pr.2)
    else if e = 'n' then
      match parseStringRest rest with
      | none => none
      | some pr => some ('\n' :: pr.1, pr.2)
    else if e = 'r' then
      match parseStringRest rest with
      | none => none
      | some pr => some ('\x0d' :: pr.1, pr.2)
    else if e = 't' then
      match parseStringRest rest with
      | none => none
      | some pr => some ('\t' :: pr.1, pr.2)
    else if e = 'u' then
      match rest with
      | h1 :: h2 :: h3 :: h4 :: rest2 =>
        if isHexDigit h1 ∧ isHexDigit h2 ∧ isHexDigit h3 ∧ isHexDigit h4 then
          match parseStringRest rest2 with
          | none => none
          | some pr =>
            some (Char.ofNat (((hexVal h1 * 16 + hexVal h2) * 16 + hexVal h3) * 16 + hexVal h4)
                    :: pr.1, pr.2)
        else none
      | _ => none
    else none
  | c :: rest =>
    if c.toNat < 32 then none
    else
      match parseStringRest rest with
      | none => none
      | some pr => some (c :: pr.1, pr.2)

def isDigit (c : Char) : Bool := decide ('0' ≤ c ∧ c ≤ '9')

/-- Fractional part of a JSON number: either absent, or a dot followed
by at least one digit. -/
def parseFrac : List Char → Option (List Char × List Char)
  | '.' :: r2 =>
    let ds := r2.takeWhile isDigit
    if ds.isEmpty then none else some ('.' :: ds, r2.dropWhile isDigit)
  | s2 => some ([], s2)

/-- Exponent part of a JSON number: either absent, or `e`/`E`, an
optional sign, and at least one digit. -/
def parseExp : List Char → Option (List Char × List Char)
  | [] => some ([], [])
  | e :: r3 =>
    if e = 'e' ∨ e = 'E' then
      let q : List Char × List Char :=
        match r3 with
        | '+' :: r5 => (['+'], r5)
        | '-' :: r5 => (['-'], r5)
        | r5 => ([], r5)
      let ds := q.2.takeWhile isDigit
      if ds.isEmpty then none else some (e :: (q.1 ++ ds), q.2.dropWhile isDigit)
    else some ([], e :: r3)

/-- Parse a JSON number lexeme
`-?(0|[1-9][0-9]*)(\.[0-9]+)?([eE][+-]?[0-9]+)?` returning the lexeme
and the rest. -/
def parseNumber (s : List Char) : Option (List Char × List Char) :=
  let p : List Char × List Char :=
    match s with
    | '-' :: r => (['-'], r)
    | r => ([], r)
  match p.2 with
  | [] => none
  | c :: r =>
    if isDigit c then
      let ip : List Char × List Char :=
        if c = '0' then ([c], r)
        else (c :: r.takeWhile isDigit, r.dropWhile isDigit)
      match parseFrac ip.2 with
      | none => none
      | some fp =>
        match parseExp fp.2 with
        | none => none
        | some ep => some (p.1 ++ ip.1 ++ fp.1 ++ ep.1, ep.2)
    else none

mutual

/-- Parse one JSON value after skipping leading whitespace, mirroring
`JSON.parse` grammar; returns the value and the remaining input. -/
def parseVal : Nat → List Char → Option (JsonVal × List Char)
  | 0, _ => none
  | Nat.succ fuel, s =>
    match skipWs s with
    | [] => none
    | 'n' :: 'u' :: 'l' :: 'l' :: r => some (JsonVal.jnull, r)
    | 't' :: 'r' :: 'u' :: 'e' :: r => some (JsonVal.jbool true, r)
    | 'f' :: 'a' :: 'l' :: 's' :: 'e' :: r => some (JsonVal.jbool false, r)
    | '"' :: r =>
      match parseStringRest r with
      | none => none
      | some pr => some (JsonVal.jstr pr.1, pr.2)
    | '[' :: r =>
      match skipWs r with
      | ']' :: r2 => some (JsonVal.jarr [], r2)
      | _ =>
        match parseElems fuel r with
        | none => none
        | some pr => some (JsonVal.jarr pr.1, pr.2)
    | '{' :: r =>
      match skipWs r with
      | '}' :: r2 => some (JsonVal.jobj [], r2)
      | _ =>
        match parseMembers fuel r with
        | none => none
        | some pr => some (JsonVal.jobj pr.1, pr.2)
    | s2 =>
      match parseNumber s2 with
      | none => none
      | some pr => some (JsonVal.jnum pr.1, pr.2)

/-- Parse a non-empty comma-separated list of array elements, up to and
including the closing bracket. -/
def parseElems : Nat → List Char → Option (List JsonVal × List Char)
  | 0, _ => none
  | Nat.succ fuel, s =>
    match parseVal fuel s with
    | none => none
    | some (v, r) =>
      match skipWs r with
      | ',' :: r2 =>
        match parseElems fuel r2 with
        | none => none
        | some pr => some (v :: pr.1, pr.2)
      | ']' :: r2 => some ([v], r2)
      | _ => none

/-- Parse a non-empty comma-separated list of object members, up to and
including the closing brace. -/
def parseMembers : Nat → List Char → Option (List (List Char × JsonVal) × List Char)
  | 0, _ => none
  | Nat.succ fuel, s =>
    match skipWs s with
    | '"' :: r =>
      match parseStringRest r with
      | none => none
      | some (key, r2) =>
        match skipWs r2 with
        | ':' :: r3 =>
          match parseVal fuel r3 with
          | none => none
          | some (v, r4) =>
            match skipWs r4 with
            | ',' :: r5 =>
              match parseMembers fuel r5 with
              | none => none
              | some pr => some ((key, v) :: pr.1, pr.2)
            | '}' :: r5 => some ([(key, v)], r5)
            | _ => none
        | _ => none
    | _ => none

end

/-- `JSON.parse(line)`: parse one JSON value and require only
whitespace to follow.  Fuel `2 * length + 4` strictly exceeds the
longest possible chain of recursive calls, each of which consumes at
least one character. -/
def jsonParse (s : List Char) : Option JsonVal :=
  match parseVal (2 * s.length + 4) s with
  | none => none
  | some (v, rest) => if (skipWs rest).isEmpty then some v else none

/-- Does a parsed JSON value have a `type` field (it must be an object
whose keys include "type")? -/
def hasTypeField : JsonVal → Bool
  | JsonVal.jobj fields => fields.any (fun f => f.1 = "type".toList)
  | _ => false

/-- `line.trim()`. -/
def jsTrim (l : List Char) : List Char :=
  ((l.dropWhile jsWhite).reverse.dropWhile jsWhite).reverse

/-- Observable effects of the stdout data handler: a `kill()` call on
the child process, or one renderer-bound IPC send (`emulator:error`,
`emulator:response`, `emulator:output`). -/
inductive OutAction where
  | kill : OutAction
  | evError : List Char → OutAction
  | evResponse : JsonVal → OutAction
  | evOutput : List Char → OutAction

/-- Events produced from one complete stdout line (the `lines.forEach`
body of `main.cjs` lines 209-222): a line starting with a brace is
parsed as JSON and sent as a structured response on success or as the
raw line on failure; otherwise a line that is non-empty after trimming
is style-rendered and sent as output; otherwise nothing is sent. -/
def lineActions (line : List Char) : List OutAction :=
  if line.head? = some '{' then
    match jsonParse line with
    | some j => [OutAction.evResponse j]
    | none => [OutAction.evOutput line]
  else if (jsTrim line).isEmpty then []
  else [OutAction.evOutput (convertAnsiToHtml line)]

/-- C4 (amended): a complete stdout line is emitted as exactly one
structured message event iff it begins with a brace and parses as JSON —
the code never checks for a `type` field; a brace-initial line that
fails to parse is emitted as one output event carrying the raw line
without style rendering; any other line non-empty after trimming is
emitted as one output event carrying its style-rendered form; a
whitespace-only or empty line produces no event. -/
theorem C4_line_classification (line : List Char) :
    ((∃ j, lineActions line = [OutAction.evResponse j]) ↔
      (line.head? = some '{' ∧ (jsonParse line).isSome))
    ∧ (line.head? = some '{' → jsonParse line = none →
        lineActions line = [OutAction.evOutput line])
    ∧ (¬ line.head? = some '{' → (jsTrim line).isEmpty = false →
        lineActions line = [OutAction.evOutput (convertAnsiToHtml line)])
    ∧ (¬ line.head? = some '{' → (jsTrim line).isEmpty = true →
        lineActions line = []) := by
  refine ⟨⟨?_, ?_⟩, ?_, ?_, ?_⟩
  · rintro ⟨j, hj⟩
    by_cases hh : line.head? = some '{'
    · refine ⟨hh, ?_⟩
      rw [lineActions, if_pos hh] at hj
      cases hp : jsonParse line with
      | none => rw [hp] at hj; simp at hj
      | some v => simp [hp]
    · rw [lineActions, if_neg hh] at hj
      by_cases ht : (jsTrim line).isEmpty
      · rw [if_pos ht] at hj; simp at hj
      · rw [if_neg ht] at hj; simp at hj
  · rintro ⟨hh, hp⟩
    rcases Option.isSome_iff_exists.mp hp with ⟨j, hj⟩
    exact ⟨j, by rw [lineActions, if_pos hh, hj]⟩
  · intro hh hp
    rw [lineActions, if_pos hh, hp]
  · intro hh ht
    rw [lineActions, if_neg hh, if_neg (by simp [ht])]
  · intro hh ht
    rw [lineActions, if_neg hh, if_pos ht]

/-- C4 witness: the rendered-output and dropped-line branches of
`C4_line_classification` applied at concrete lines, with the hypotheses
discharged there. -/
theorem C4_witness :
    (¬ (['a'].head? = some '{')) ∧ (jsTrim ['a']).isEmpty = false ∧
    lineActions ['a'] = [OutAction.evOutput (convertAnsiToHtml ['a'])] ∧
    (¬ (([' '] : List Char).head? = some '{')) ∧ (jsTrim [' ']).isEmpty = true ∧
    lineActions [' '] = [] :=
  ⟨by decide, by decide, (C4_line_classification ['a']).2.2.1 (by decide) (by decide),
   by decide, by decide, (C4_line_classification [' ']).2.2.2 (by decide) (by decide)⟩

/-- C4 counterexample: the line "\x7b\x7d" (an empty JSON object) begins
with a brace, parses as JSON, has no type field, and is nevertheless
emitted as a structured message event — refuting the requirement of a
type field in the claim. -/
theorem C4_counterexample :
    lineActions ("\x7b\x7d".toList) = [OutAction.evResponse (JsonVal.jobj [])] ∧
    jsonParse ("\x7b\x7d".toList) = some (JsonVal.jobj []) ∧
    hasTypeField (JsonVal.jobj []) = false :=
  ⟨rfl, rfl, rfl⟩

/-! Embedding of the module-level process lifecycle of `main.cjs`
(`emulatorProcess`, `spawnEmulator`, and the `emulator:command` /
`emulator:stop` IPC handlers) as a trace machine.  The externally
scheduled callbacks — delivery of a child process `exit` or `error`
event, an IPC invocation, the stop handler's `setTimeout` firing — are
the steps; `MainState.log` records the observable effects in order
(kill signals, renderer-bound sends, stdin writes).  `LogEntry.evExit`
and `LogEntry.evError` carry the pid of the process whose callback
fired, for attribution only — the renderer payload is the code or the
message. -/

inductive Platform where
  | win32 : Platform
  | linux : Platform
  | darwin : Platform

def platformDir : Platform → String
  | Platform.win32 => "win64"
  | Platform.linux => "linux"
  | Platform.darwin => "macos"

def emuFileName : Platform → String
  | Platform.win32 => "emulator.exe"
  | _ => "emulator.out"

def getEmulatorPath (pf : Platform) (pathExists : List String → Bool) :
    Option (List String) :=
  let p := ["bin", platformDir pf, emuFileName pf]
  if pathExists p then some p
  else
    let alt := ["app.asar.unpacked", "bin", platformDir pf, emuFileName pf]
    if pathExists alt then some alt
    else none

inductive Sig where
  | sigterm : Sig
  | sigkill : Sig
deriving DecidableEq

inductive LogEntry where
  | killed : Nat → Sig → LogEntry
  | evError : Nat → String → LogEntry
  | evExit : Nat → Int → LogEntry
  | wrote : Nat → String → LogEntry
  | cmdErr : LogEntry
  | dialogBox : String → String → LogEntry
deriving DecidableEq

structure MainState where
  emulatorProcess : Option Nat
  nextPid : Nat
  timers : Nat
  log : List LogEntry
deriving DecidableEq

def initMain : MainState := ⟨none, 0, 0, []⟩

/-- One externally scheduled event hitting the main process:
`start emPath` is the `emulator:start` handler running `spawnEmulator`
with `emPath` the result of `getEmulatorPath`; `exitD p code` and
`errorD p msg` are the deliveries of a spawned process's `exit` and
`error` callbacks; `command c` is the `emulator:command` handler;
`stop` is the `emulator:stop` handler; `timerFire` is the firing of a
`setTimeout` scheduled by `stop`. -/
inductive Step where
  | start : Option (List String) → Step
  | exitD : Nat → Option Int → Step
  | errorD : Nat → String → Step
  | command : String → Step
  | stop : Step
  | timerFire : Step
deriving DecidableEq

/-- The `emulator:command` handler of `main.cjs` lines 250-256: if no
process handle is live it returns the error object, otherwise it writes
the command plus a newline to that process's stdin (recorded as a
`wrote` entry) and returns no error. -/
def commandHandler (st : MainState) (c : String) : MainState × Option String :=
  match st.emulatorProcess with
  | none => (st, some "Emulator not running")
  | some p => ({ st with log := st.log ++ [LogEntry.wrote p (c ++ "\n")] }, none)

/-- Effect of one event on the main-process state, faithful to
`main.cjs`: a second `start` kills the live process before spawning; the
`exit` and `error` callbacks send their event and unconditionally null
the shared `emulatorProcess` variable (lines 240 and 246 — whichever
process they fired for); `stop` sends SIGTERM, schedules the forced-kill
timer and nulls the handle at once; the timer callback SIGKILLs
whatever process handle is live when it fires.  `exitD`/`errorD` are
no-ops for a pid that was never spawned (`p < nextPid` fails): a process
that never existed cannot deliver callbacks. -/
def step (st : MainState) (s : Step) : MainState :=
  match s with
  | Step.start emPath =>
    match emPath with
    | none => { st with log := st.log ++
        [LogEntry.dialogBox "Unsupported Platform" "Your platform is not supported."] }
    | some _ =>
      let st1 :=
        match st.emulatorProcess with
        | some p => { st with emulatorProcess := none,
                              log := st.log ++ [LogEntry.killed p Sig.sigterm] }
        | none => st
      { st1 with emulatorProcess := some st1.nextPid, nextPid := st1.nextPid + 1 }
  | Step.exitD p code =>
    if p < st.nextPid then
      { st with log := st.log ++ [LogEntry.evExit p (code.getD 0)],
                emulatorProcess := none }
    else st
  | Step.errorD p msg =>
    if p < st.nextPid then
      { st with log := st.log ++
          [LogEntry.evError p ("Failed to start emulator: " ++ msg)],
                emulatorProcess := none }
    else st
  | Step.command c =>
    match commandHandler st c with
    | (st2, some _) => { st2 with log := st2.log ++ [LogEntry.cmdErr] }
    | (st2, none) => st2
  | Step.stop =>
    match st.emulatorProcess with
    | none => st
    | some p => { st with log := st.log ++ [LogEntry.killed p Sig.sigterm],
                          timers := st.timers + 1, emulatorProcess := none }
  | Step.timerFire =>
    match st.timers with
    | 0 => st
    | Nat.succ t =>
      match st.emulatorProcess with
      | some q => { st with timers := t, log := st.log ++ [LogEntry.killed q Sig.sigkill] }
      | none => { st with timers := t }

def run (ss : List Step) : MainState := ss.foldl step initMain

def dfltPath : List String := ["bin", "linux", "emulator.out"]

def isErrEvent : LogEntry → Bool
  | LogEntry.evError _ _ => true
  | _ => false

def isExitEvent : LogEntry → Bool
  | LogEntry.evExit _ _ => true
  | _ => false

-- quick sanity
example : (run [Step.start (some dfltPath), Step.start (some dfltPath),
    Step.exitD 0 (some 0), Step.command "step"]).log =
    [LogEntry.killed 0 Sig.sigterm, LogEntry.evExit 0 0, LogEntry.cmdErr] := by rfl

example : (run [Step.start (some dfltPath), Step.stop, Step.timerFire]).log =
    [LogEntry.killed 0 Sig.sigterm] := by rfl

example : (run [Step.start (some dfltPath), Step.stop, Step.start (some dfltPath),
    Step.timerFire]).log =
    [LogEntry.killed 0 Sig.sigterm, LogEntry.killed 1 Sig.sigkill] := by rfl

example : (run [Step.start (getEmulatorPath Platform.linux (fun _ => false))]).log =
    [LogEntry.dialogBox "Unsupported Platform" "Your platform is not supported."] := by rfl


def exitedPids (log : List LogEntry) : List Nat :=
  log.filterMap (fun e => match e with
    | LogEntry.evExit p _ => some p
    | _ => none)

/-- Scanning a log left to right with the set `ex` of processes whose
exit event has already been emitted: no write may target such a
process. -/
def okFrom (ex : List Nat) : List LogEntry → Prop
  | [] => True
  | LogEntry.wrote p _ :: rest => ¬ p ∈ ex ∧ okFrom ex rest
  | LogEntry.evExit p _ :: rest => okFrom (p :: ex) rest
  | LogEntry.killed _ _ :: rest => okFrom ex rest
  | LogEntry.evError _ _ :: rest => okFrom ex rest
  | LogEntry.cmdErr :: rest => okFrom ex rest
  | LogEntry.dialogBox _ _ :: rest => okFrom ex rest

theorem okFrom_append (l1 : List LogEntry) :
    ∀ (ex : List Nat) (l2 : List LogEntry),
    okFrom ex (l1 ++ l2) ↔ okFrom ex l1 ∧ okFrom ((exitedPids l1).reverse ++ ex) l2 := by
  induction l1 with
  | nil => intro ex l2; simp [okFrom, exitedPids]
  | cons e rest ih =>
    intro ex l2
    cases e with
    | wrote p c =>
      show (¬ p ∈ ex ∧ okFrom ex (rest ++ l2)) ↔
        ((¬ p ∈ ex ∧ okFrom ex rest) ∧ okFrom ((exitedPids rest).reverse ++ ex) l2)
      rw [ih ex l2, and_assoc]
    | evExit p code =>
      show okFrom (p :: ex) (rest ++ l2) ↔
        (okFrom (p :: ex) rest ∧
          okFrom ((exitedPids (LogEntry.evExit p code :: rest)).reverse ++ ex) l2)
      have hx : exitedPids (LogEntry.evExit p code :: rest) = p :: exitedPids rest := rfl
      rw [hx, List.reverse_cons, List.append_assoc, List.singleton_append]
      exact ih (p :: ex) l2
    | killed q sg => exact ih ex l2
    | evError q m => exact ih ex l2
    | cmdErr => exact ih ex l2
    | dialogBox t m => exact ih ex l2


theorem exitedPids_append (l1 l2 : List LogEntry) :
    exitedPids (l1 ++ l2) = exitedPids l1 ++ exitedPids l2 := by
  simp [exitedPids, List.filterMap_append]

theorem okFrom_snoc_nonwrite (l : List LogEntry) (e : LogEntry) (h : okFrom [] l)
    (he : ∀ ex', okFrom ex' [e]) : okFrom [] (l ++ [e]) :=
  (okFrom_append l [] [e]).mpr ⟨h, he _⟩

theorem okFrom_snoc_wrote (l : List LogEntry) (p : Nat) (c : String) (h : okFrom [] l)
    (hp : ¬ p ∈ exitedPids l) : okFrom [] (l ++ [LogEntry.wrote p c]) := by
  refine (okFrom_append l [] [LogEntry.wrote p c]).mpr ⟨h, ?_⟩
  show ¬ p ∈ (exitedPids l).reverse ++ [] ∧ True
  simp [hp]

theorem exitedPids_snoc_nonexit (l : List LogEntry) (e : LogEntry)
    (he : exitedPids [e] = []) : exitedPids (l ++ [e]) = exitedPids l := by
  rw [exitedPids_append, he, List.append_nil]

theorem exitedPids_snoc_killed (l : List LogEntry) (q : Nat) (s : Sig) :
    exitedPids (l ++ [LogEntry.killed q s]) = exitedPids l :=
  exitedPids_snoc_nonexit l (LogEntry.killed q s) rfl

theorem exitedPids_snoc_evError (l : List LogEntry) (q : Nat) (m : String) :
    exitedPids (l ++ [LogEntry.evError q m]) = exitedPids l :=
  exitedPids_snoc_nonexit l (LogEntry.evError q m) rfl

theorem exitedPids_snoc_wrote (l : List LogEntry) (q : Nat) (c : String) :
    exitedPids (l ++ [LogEntry.wrote q c]) = exitedPids l :=
  exitedPids_snoc_nonexit l (LogEntry.wrote q c) rfl

theorem exitedPids_snoc_cmdErr (l : List LogEntry) :
    exitedPids (l ++ [LogEntry.cmdErr]) = exitedPids l :=
  exitedPids_snoc_nonexit l LogEntry.cmdErr rfl

theorem exitedPids_snoc_dialog (l : List LogEntry) (t m : String) :
    exitedPids (l ++ [LogEntry.dialogBox t m]) = exitedPids l :=
  exitedPids_snoc_nonexit l (LogEntry.dialogBox t m) rfl

/-- State invariant tying the live process handle to the event log: the
live pid (if any) is a spawned pid with no exit event yet, every exited
pid was spawned, and no write in the log targets an already-exited
process. -/
def Inv : MainState → Prop
  | ⟨ep, np, _, lg⟩ =>
    (∀ q, ep = some q → q < np ∧ ¬ q ∈ exitedPids lg)
    ∧ (∀ p, p ∈ exitedPids lg → p < np)
    ∧ okFrom [] lg

theorem Inv_initMain : Inv initMain := by
  refine ⟨?_, ?_, trivial⟩
  · intro q hq; cases hq
  · intro p hp; simp [exitedPids] at hp

theorem step_preserves_Inv (st : MainState) (s : Step) (h : Inv st) : Inv (step st s) := by
  obtain ⟨ep, np, tm, lg⟩ := st
  obtain ⟨h1, h2, h3⟩ := h
  cases s with
  | start emPath =>
    cases emPath with
    | none =>
      rw [show step ⟨ep, np, tm, lg⟩ (Step.start none) = ⟨ep, np, tm, lg ++
        [LogEntry.dialogBox "Unsupported Platform" "Your platform is not supported."]⟩
        from rfl]
      rw [show Inv ⟨ep, np, tm, lg ++
        [LogEntry.dialogBox "Unsupported Platform" "Your platform is not supported."]⟩ =
        ((∀ q, ep = some q → q < np ∧ ¬ q ∈ exitedPids (lg ++
          [LogEntry.dialogBox "Unsupported Platform" "Your platform is not supported."]))
        ∧ (∀ p, p ∈ exitedPids (lg ++
          [LogEntry.dialogBox "Unsupported Platform" "Your platform is not supported."]) → p < np)
        ∧ okFrom [] (lg ++
          [LogEntry.dialogBox "Unsupported Platform" "Your platform is not supported."]))
        from rfl]
      rw [exitedPids_snoc_dialog lg]
      exact ⟨h1, h2, okFrom_snoc_nonwrite _ _ h3 (fun ex' => trivial)⟩
    | some path =>
      cases ep with
      | none =>
        rw [show step ⟨none, np, tm, lg⟩ (Step.start (some path)) =
          ⟨some np, np + 1, tm, lg⟩ from rfl]
        refine ⟨?_, ?_, h3⟩
        · intro q hq
          have hq2 : np = q := Option.some.inj hq
          subst hq2
          refine ⟨by omega, fun hmem => ?_⟩
          have := h2 np hmem
          omega
        · intro p hp
          have := h2 p hp
          omega
      | some p0 =>
        rw [show step ⟨some p0, np, tm, lg⟩ (Step.start (some path)) =
          ⟨some np, np + 1, tm, lg ++ [LogEntry.killed p0 Sig.sigterm]⟩ from rfl]
        rw [show Inv ⟨some np, np + 1, tm, lg ++ [LogEntry.killed p0 Sig.sigterm]⟩ =
          ((∀ q, some np = some q → q < np + 1 ∧
            ¬ q ∈ exitedPids (lg ++ [LogEntry.killed p0 Sig.sigterm]))
          ∧ (∀ p, p ∈ exitedPids (lg ++ [LogEntry.killed p0 Sig.sigterm]) → p < np + 1)
          ∧ okFrom [] (lg ++ [LogEntry.killed p0 Sig.sigterm])) from rfl]
        rw [exitedPids_snoc_killed lg]
        refine ⟨?_, ?_, okFrom_snoc_nonwrite _ _ h3 (fun ex' => trivial)⟩
        · intro q hq
          have hq2 : np = q := Option.some.inj hq
          subst hq2
          refine ⟨by omega, fun hmem => ?_⟩
          have := h2 np hmem
          omega
        · intro p hp
          have := h2 p hp
          omega
  | exitD p code =>
    by_cases hlt : p < np
    · rw [show step ⟨ep, np, tm, lg⟩ (Step.exitD p code) =
        ⟨none, np, tm, lg ++ [LogEntry.evExit p (code.getD 0)]⟩ by simp [step, hlt]]
      refine ⟨?_, ?_, okFrom_snoc_nonwrite _ _ h3 (fun ex' => trivial)⟩
      · intro q hq; cases hq
      · intro q hq
        rw [exitedPids_append] at hq
        rcases List.mem_append.mp hq with hq | hq
        · exact h2 q hq
        · rw [show exitedPids [LogEntry.evExit p (code.getD 0)] = [p] from rfl] at hq
          rw [List.mem_singleton.mp hq]
          exact hlt
    · rw [show step ⟨ep, np, tm, lg⟩ (Step.exitD p code) = ⟨ep, np, tm, lg⟩ by
        simp [step, hlt]]
      exact ⟨h1, h2, h3⟩
  | errorD p msg =>
    by_cases hlt : p < np
    · rw [show step ⟨ep, np, tm, lg⟩ (Step.errorD p msg) =
        ⟨none, np, tm, lg ++ [LogEntry.evError p ("Failed to start emulator: " ++ msg)]⟩ by
          simp [step, hlt]]
      refine ⟨?_, ?_, okFrom_snoc_nonwrite _ _ h3 (fun ex' => trivial)⟩
      · intro q hq; cases hq
      · intro q hq
        rw [exitedPids_snoc_evError lg] at hq
        exact h2 q hq
    · rw [show step ⟨ep, np, tm, lg⟩ (Step.errorD p msg) = ⟨ep, np, tm, lg⟩ by
        simp [step, hlt]]
      exact ⟨h1, h2, h3⟩
  | command c =>
    cases ep with
    | none =>
      rw [show step ⟨none, np, tm, lg⟩ (Step.command c) =
        ⟨none, np, tm, lg ++ [LogEntry.cmdErr]⟩ from rfl]
      refine ⟨?_, ?_, okFrom_snoc_nonwrite _ _ h3 (fun ex' => trivial)⟩
      · intro q hq; cases hq
      · intro q hq
        rw [exitedPids_snoc_cmdErr lg] at hq
        exact h2 q hq
    | some p =>
      rw [show step ⟨some p, np, tm, lg⟩ (Step.command c) =
        ⟨some p, np, tm, lg ++ [LogEntry.wrote p (c ++ "\n")]⟩ from rfl]
      refine ⟨?_, ?_, okFrom_snoc_wrote _ _ _ h3 (h1 p rfl).2⟩
      · intro q hq
        have hq2 : p = q := Option.some.inj hq
        subst hq2
        refine ⟨(h1 p rfl).1, ?_⟩
        rw [exitedPids_snoc_wrote lg]
        exact (h1 p rfl).2
      · intro q hq
        rw [exitedPids_snoc_wrote lg] at hq
        exact h2 q hq
  | stop =>
    cases ep with
    | none => exact ⟨h1, h2, h3⟩
    | some p =>
      rw [show step ⟨some p, np, tm, lg⟩ Step.stop =
        ⟨none, np, tm + 1, lg ++ [LogEntry.killed p Sig.sigterm]⟩ from rfl]
      refine ⟨?_, ?_, okFrom_snoc_nonwrite _ _ h3 (fun ex' => trivial)⟩
      · intro q hq; cases hq
      · intro q hq
        rw [exitedPids_snoc_killed lg] at hq
        exact h2 q hq
  | timerFire =>
    cases tm with
    | zero => exact ⟨h1, h2, h3⟩
    | succ t =>
      cases ep with
      | none =>
        rw [show step ⟨none, np, t + 1, lg⟩ Step.timerFire = ⟨none, np, t, lg⟩ from rfl]
        refine ⟨?_, h2, h3⟩
        intro q hq
        cases hq
      | some q0 =>
        rw [show step ⟨some q0, np, t + 1, lg⟩ Step.timerFire =
          ⟨some q0, np, t, lg ++ [LogEntry.killed q0 Sig.sigkill]⟩ from rfl]
        refine ⟨?_, ?_, okFrom_snoc_nonwrite _ _ h3 (fun ex' => trivial)⟩
        · intro q hq
          have hq2 : q0 = q := Option.some.inj hq
          subst hq2
          refine ⟨(h1 q0 rfl).1, ?_⟩
          rw [exitedPids_snoc_killed lg]
          exact (h1 q0 rfl).2
        · intro q hq
          rw [exitedPids_snoc_killed lg] at hq
          exact h2 q hq


theorem foldl_preserves_Inv (ss : List Step) :
    ∀ st, Inv st → Inv (ss.foldl step st) := by
  induction ss with
  | nil => intro st h; exact h
  | cons s ss' ih => intro st h; exact ih _ (step_preserves_Inv st s h)

theorem run_Inv (ss : List Step) : Inv (run ss) :=
  foldl_preserves_Inv ss initMain Inv_initMain

theorem step_keeps_none (st : MainState) (s : Step)
    (hp : st.emulatorProcess = none)
    (hs : ∀ path, ¬ s = Step.start (some path)) :
    (step st s).emulatorProcess = none := by
  obtain ⟨ep, np, tm, lg⟩ := st
  have hp2 : ep = none := hp
  subst hp2
  cases s with
  | start emPath =>
    cases emPath with
    | none => rfl
    | some path => exact absurd rfl (hs path)
  | exitD p code =>
    by_cases hlt : p < np
    · simp [step, hlt]
    · simp [step, hlt]
  | errorD p msg =>
    by_cases hlt : p < np
    · simp [step, hlt]
    · simp [step, hlt]
  | command c => rfl
  | stop => rfl
  | timerFire => cases tm <;> rfl

theorem foldl_keeps_none (t2 : List Step) :
    ∀ st : MainState, st.emulatorProcess = none →
    (∀ path, ¬ Step.start (some path) ∈ t2) →
    (t2.foldl step st).emulatorProcess = none := by
  induction t2 with
  | nil => intro st h _; exact h
  | cons s t2x ih =>
    intro st h hmem
    apply ih
    · apply step_keeps_none st s h
      intro path heq
      exact hmem path (by rw [heq]; exact List.mem_cons_self _ _)
    · intro path hmem2
      exact hmem path (List.mem_cons_of_mem _ hmem2)

theorem step_exitD_sets_none (st : MainState) (p : Nat) (code : Option Int)
    (h : p < st.nextPid) : (step st (Step.exitD p code)).emulatorProcess = none := by
  obtain ⟨ep, np, tm, lg⟩ := st
  have h2 : p < np := h
  simp [step, h2]

theorem step_errorD_sets_none (st : MainState) (p : Nat) (msg : String)
    (h : p < st.nextPid) : (step st (Step.errorD p msg)).emulatorProcess = none := by
  obtain ⟨ep, np, tm, lg⟩ := st
  have h2 : p < np := h
  simp [step, h2]

theorem step_command_none (st : MainState) (c : String)
    (hp : st.emulatorProcess = none) :
    step st (Step.command c) = { st with log := st.log ++ [LogEntry.cmdErr] } := by
  obtain ⟨ep, np, tm, lg⟩ := st
  have hp2 : ep = none := hp
  subst hp2
  rfl

theorem C9_handle_cleared_after_exit :
    (∀ ss : List Step, okFrom [] (run ss).log)
    ∧ (∀ (t1 : List Step) (p : Nat) (code : Option Int) (t2 : List Step) (c : String),
        p < (run t1).nextPid →
        (∀ path, ¬ Step.start (some path) ∈ t2) →
        (run ((t1 ++ Step.exitD p code :: t2) ++ [Step.command c])).log =
          (run (t1 ++ Step.exitD p code :: t2)).log ++ [LogEntry.cmdErr])
    ∧ (∀ (t1 : List Step) (p : Nat) (msg : String) (t2 : List Step) (c : String),
        p < (run t1).nextPid →
        (∀ path, ¬ Step.start (some path) ∈ t2) →
        (run ((t1 ++ Step.errorD p msg :: t2) ++ [Step.command c])).log =
          (run (t1 ++ Step.errorD p msg :: t2)).log ++ [LogEntry.cmdErr]) := by
  refine ⟨fun ss => (run_Inv ss).2.2, ?_, ?_⟩
  · intro t1 p code t2 c hlt hnostart
    have hA : (run (t1 ++ Step.exitD p code :: t2)).emulatorProcess = none := by
      rw [run, List.foldl_append, List.foldl_cons]
      exact foldl_keeps_none t2 _ (step_exitD_sets_none (run t1) p code hlt) hnostart
    have hB : run ((t1 ++ Step.exitD p code :: t2) ++ [Step.command c]) =
        step (run (t1 ++ Step.exitD p code :: t2)) (Step.command c) := by
      rw [run, run, List.foldl_append, List.foldl_cons, List.foldl_nil]
    rw [hB, step_command_none _ c hA]
  · intro t1 p msg t2 c hlt hnostart
    have hA : (run (t1 ++ Step.errorD p msg :: t2)).emulatorProcess = none := by
      rw [run, List.foldl_append, List.foldl_cons]
      exact foldl_keeps_none t2 _ (step_errorD_sets_none (run t1) p msg hlt) hnostart
    have hB : run ((t1 ++ Step.errorD p msg :: t2) ++ [Step.command c]) =
        step (run (t1 ++ Step.errorD p msg :: t2)) (Step.command c) := by
      rw [run, run, List.foldl_append, List.foldl_cons, List.foldl_nil]
    rw [hB, step_command_none _ c hA]

theorem C9_witness :
    0 < (run [Step.start (some dfltPath)]).nextPid ∧
    (∀ path, ¬ Step.start (some path) ∈ ([] : List Step)) ∧
    (run (([Step.start (some dfltPath)] ++ Step.exitD 0 (some 0) :: []) ++
        [Step.command "step"])).log =
      (run ([Step.start (some dfltPath)] ++ Step.exitD 0 (some 0) :: [])).log ++
        [LogEntry.cmdErr] :=
  ⟨by decide, fun path h => by simp at h,
   C9_handle_cleared_after_exit.2.1 [Step.start (some dfltPath)] 0 (some 0) [] "step" (by decide)
     (fun path h => by simp at h)⟩

theorem C7_send_command (st : MainState) (c : String) :
    ((commandHandler st c).2.isSome ↔ st.emulatorProcess = none)
    ∧ (st.emulatorProcess = none → commandHandler st c = (st, some "Emulator not running"))
    ∧ (∀ p, st.emulatorProcess = some p →
        commandHandler st c =
          ({ st with log := st.log ++ [LogEntry.wrote p (c ++ "\n")] }, none)) := by
  obtain ⟨ep, np, tm, lg⟩ := st
  cases ep with
  | none =>
    refine ⟨by simp [commandHandler], fun _ => rfl, ?_⟩
    intro p hp
    cases hp
  | some q =>
    refine ⟨by simp [commandHandler], ?_, ?_⟩
    · intro hp
      cases hp
    · intro p hp
      have hq : q = p := Option.some.inj hp
      subst hq
      rfl

theorem C7_witness :
    (initMain.emulatorProcess = none) ∧
    commandHandler initMain "step" = (initMain, some "Emulator not running") ∧
    ((⟨some 0, 1, 0, []⟩ : MainState).emulatorProcess = some 0) ∧
    commandHandler ⟨some 0, 1, 0, []⟩ "step" =
      (⟨some 0, 1, 0, [LogEntry.wrote 0 ("step" ++ "\n")]⟩, none) :=
  ⟨rfl, (C7_send_command initMain "step").2.1 rfl, rfl,
   (C7_send_command ⟨some 0, 1, 0, []⟩ "step").2.2 0 rfl⟩

theorem C6_missing_executable_dialog (st : MainState) (pf : Platform)
    (ex : List String → Bool) (h : getEmulatorPath pf ex = none) :
    step st (Step.start (getEmulatorPath pf ex)) =
      { st with log := st.log ++ [LogEntry.dialogBox "Unsupported Platform"
        "Your platform is not supported."] } := by
  rw [h]
  obtain ⟨ep, np, tm, lg⟩ := st
  rfl

theorem C6_witness :
    getEmulatorPath Platform.linux (fun _ => false) = none ∧
    step initMain (Step.start (getEmulatorPath Platform.linux (fun _ => false))) =
      { initMain with log := [LogEntry.dialogBox "Unsupported Platform"
        "Your platform is not supported."] } :=
  ⟨rfl, C6_missing_executable_dialog initMain Platform.linux (fun _ => false) rfl⟩


/-- C3: evaluation of the double-start trace.  Starting a new session
kills the active process first, and exactly one exit event attributable
to the first process is emitted; but when that exit event is delivered,
the exit handler unconditionally clears the shared module-level handle,
orphaning the second (still running) process: the subsequent command
returns the not-running error instead of reaching the second process. -/
theorem C3_stale_exit_clears_second_session :
    (run [Step.start (some dfltPath), Step.start (some dfltPath),
      Step.exitD 0 (some 0), Step.command "step"]).log =
      [LogEntry.killed 0 Sig.sigterm, LogEntry.evExit 0 0, LogEntry.cmdErr] ∧
    (run [Step.start (some dfltPath), Step.start (some dfltPath),
      Step.exitD 0 (some 0), Step.command "step"]).emulatorProcess = none :=
  ⟨rfl, rfl⟩

/-- C5: evaluation of the stop handler.  stop() with no active process
is a no-op (first conjunct) and sends SIGTERM immediately; but because
the handler clears the handle before the 1000 ms timer fires, the timer
finds no process and the stopped process is never sent SIGKILL (second
conjunct: the only kill ever logged is the SIGTERM), and if a new
session starts within the grace window the timer SIGKILLs the new
process instead (third conjunct). -/
theorem C5_stop_timer_behavior :
    run [Step.stop] = initMain ∧
    (run [Step.start (some dfltPath), Step.stop, Step.timerFire]).log =
      [LogEntry.killed 0 Sig.sigterm] ∧
    (run [Step.start (some dfltPath), Step.stop, Step.start (some dfltPath),
      Step.timerFire]).log =
      [LogEntry.killed 0 Sig.sigterm, LogEntry.killed 1 Sig.sigkill] :=
  ⟨rfl, rfl, rfl⟩

/-- C6 counterexample: when no executable exists at either candidate
location, start shows a native error dialog and returns — the log holds
the dialog, no error event, no exit event, nothing spawned — refuting
the claim that the failure is surfaced as a single error event. -/
theorem C6_counterexample :
    (run [Step.start (getEmulatorPath Platform.linux (fun _ => false))]).log =
      [LogEntry.dialogBox "Unsupported Platform" "Your platform is not supported."] ∧
    ((run [Step.start (getEmulatorPath Platform.linux (fun _ => false))]).log.filter
      isErrEvent) = [] ∧
    ((run [Step.start (getEmulatorPath Platform.linux (fun _ => false))]).log.filter
      isExitEvent) = [] ∧
    (run [Step.start (getEmulatorPath Platform.linux (fun _ => false))]).nextPid = 0 ∧
    (run [Step.start (getEmulatorPath Platform.linux
      (fun _ => false))]).emulatorProcess = none :=
  ⟨rfl, rfl, rfl, rfl, rfl⟩

end IasEditor
